import Mathlib

/-!
# TeleNews matching / deduplication / delivery core — verification

A shallow embedding of the core algorithms of the TeleNews bot
(`bot.py`, `news_crawler.py`, `database.py`) together with proofs about
them.  Machine text is modelled as `List Char`, times of day as minutes,
parsed publication dates as natural-number timestamps, and news items by
their identifying URL plus date.  Each definition cites the source lines
it embeds.
-/

namespace TeleNews

/-! ## Data model and operations (shallow embedding of the source) -/

/-- A row of the `stock_alert_levels` table (`database.py` 69-77,
223-234): the last announced alert level and the reference peak
(`ath_price`) it was announced under.  Prices are modelled as integers;
the code only compares them for (in)equality. -/
structure AlertState where
  lastLevel : Int
  athPrice : Int
deriving DecidableEq, Repr

/-- The threshold-alert decision of `check_stock_drop_alerts`
(`bot.py` 1966-1976): alert when there is no stored state or the stored
reference peak differs from the observed one (re-arm), gated by
`current_level >= 5`; otherwise only when the level strictly rose. -/
def should_alert (currentLevel : Int) (athPrice : Int)
    (lastAlert : Option AlertState) : Bool :=
  match lastAlert with
  | none => decide (5 ≤ currentLevel)
  | some st =>
    if st.athPrice ≠ athPrice then decide (5 ≤ currentLevel)
    else if currentLevel > st.lastLevel ∧ 5 ≤ currentLevel then true
    else false

/-- Classification of what the transport does on one send attempt, per the
exception handling of `send_message_to_user` (`bot.py` 2077-2092):
`blocked` is the permanent class (`bot was blocked` / `Forbidden`),
`transientErr` the retryable network class, `otherErr` everything else. -/
inductive SendOutcome where
  | success
  | blocked
  | transientErr
  | otherErr
deriving DecidableEq, Repr

/-- Observable behaviour of one `send_message_to_user` call: final result,
number of attempts actually made, backoff delays slept between attempts
(seconds), and whether the subscriber was marked blocked. -/
structure SendTrace where
  ok : Bool
  attempts : Nat
  delays : List Nat
  markedBlocked : Bool
deriving DecidableEq, Repr

/-- The retry loop of `send_message_to_user` (`bot.py` 2056-2112) with
`max_retries = 3` and `base_delay = 2`.  `outcome k` is the transport's
behaviour on 0-based attempt `k`; `fuel` only bounds the loop (the source
loop runs `for attempt in range(3)`). -/
def sendLoop (outcome : Nat → SendOutcome) : Nat → Nat → List Nat → SendTrace
  | _, 0, delays => ⟨false, 3, delays, false⟩
  | attempt, fuel + 1, delays =>
    match outcome attempt with
    | .success => ⟨true, attempt + 1, delays, false⟩
    | .blocked => ⟨false, attempt + 1, delays, true⟩
    | .transientErr =>
      if attempt < 3 - 1 then
        sendLoop outcome (attempt + 1) fuel (delays ++ [2 * 2 ^ attempt])
      else ⟨false, attempt + 1, delays, false⟩
    | .otherErr => ⟨false, attempt + 1, delays, false⟩

/-- Embedding of `send_message_to_user` (`bot.py` 2056-2112). -/
def send_message_to_user (outcome : Nat → SendOutcome) : SendTrace :=
  sendLoop outcome 0 3 []

/-- A news item as the delivery engine sees it: its identifying URL and
its publication date.  The RFC-2822 date string of the source is
modelled by its parsed timestamp (a natural number); `_sort_news_by_date`
and `_get_latest_news` only compare parsed dates. -/
structure NewsItem where
  url : Nat
  date : Nat
deriving DecidableEq, Repr

/-- Stable insertion (descending by key) used to model Python's stable
`sorted(..., key=parse_date, reverse=True)`: an element is placed before
the first element whose key is `≤` its own, so earlier list positions win
ties, exactly as a stable descending sort does. -/
def insertDescBy (key : α → Nat) (x : α) : List α → List α
  | [] => [x]
  | y :: ys => if key y ≤ key x then x :: y :: ys else y :: insertDescBy key x ys

/-- Stable descending sort by `key` (`_sort_news_by_date`, `bot.py`
1302-1324, and `_get_latest_news`, `news_crawler.py` 249-270). -/
def sortDescBy (key : α → Nat) : List α → List α
  | [] => []
  | x :: xs => insertDescBy key x (sortDescBy key xs)

/-- Embedding of `_sort_news_by_date` (`bot.py` 1302-1324): newest first, stable. -/
def sort_news_by_date (l : List NewsItem) : List NewsItem :=
  sortDescBy (fun n => n.date) l

/-- The per-(subscriber, expression) slice of the `sent_news` table
(`database.py` 56-66): the list of recorded URLs. -/
abbrev Ledger := List Nat

/-- Embedding of `is_news_sent` (`database.py` 163-168). -/
def is_news_sent (ledger : Ledger) (url : Nat) : Bool :=
  ledger.contains url

/-- Embedding of `mark_news_sent` (`database.py` 170-180): the UNIQUE constraint on
(user, keyword, url) makes a duplicate INSERT fail with IntegrityError
and roll back, so re-marking an already recorded URL leaves the table
unchanged. -/
def mark_news_sent (ledger : Ledger) (url : Nat) : Ledger :=
  if ledger.contains url then ledger else ledger ++ [url]

/-- Recording a whole delivered batch (`bot.py` 1440-1442 / 1819-1821):
one `mark_news_sent` per item. -/
def recordAll (ledger : Ledger) (batch : List NewsItem) : Ledger :=
  batch.foldl (fun ld n => mark_news_sent ld n.url) ledger

/-- URL-deduplication keeping the first occurrence (`_remove_duplicates`,
`bot.py` 44-54, and the `seen_urls` loops). -/
def dedupeByUrl (l : List NewsItem) : List NewsItem :=
  l.foldl (fun acc n => if acc.any (fun m => m.url == n.url) then acc else acc ++ [n]) []

/-- Embedding of `_get_additional_news` (`bot.py` 1503-1540): from the freshly crawled
pool (`crawl`, the concatenated per-base-keyword results), deduplicate by
URL, sort newest first, keep only items already recorded as seen, and
take at most `needed`. -/
def get_additional_news (ledger : Ledger) (crawl : List NewsItem)
    (needed : Nat) : List NewsItem :=
  if crawl.isEmpty then []
  else
    (((sort_news_by_date (dedupeByUrl crawl)).filter
      (fun n => is_news_sent ledger n.url)).take needed)

/-- A row of the `quiet_hours` table (`database.py` 80-87): start and end
of the window in minutes of day (the `"HH:MM"` strings of the source
compare lexicographically, which on zero-padded times is exactly the
numeric order on minutes of day). -/
structure QuietHours where
  startTime : Nat
  endTime : Nat
  enabled : Bool
deriving DecidableEq, Repr

/-- Embedding of `is_quiet_time` (`bot.py` 194-221) at current wall-clock time `cur`
(minutes of day). -/
def is_quiet_time (q : Option QuietHours) (cur : Nat) : Bool :=
  match q with
  | none => false
  | some qh =>
    if !qh.enabled then false
    else if qh.startTime ≤ qh.endTime then
      decide (qh.startTime ≤ cur) && decide (cur ≤ qh.endTime)
    else
      decide (qh.startTime ≤ cur) || decide (cur ≤ qh.endTime)

/-- Observable result of one `_send_news_to_user` call: the batch shown to
the user (if a message was composed and dispatched), the ledger
afterwards, and the items padded in from the already-seen pool. -/
structure DeliveryResult where
  message : Option (List NewsItem)
  ledger : Ledger
  backfilled : List NewsItem
deriving DecidableEq, Repr

/-- Embedding of `_send_news_to_user` (`bot.py` 1344-1501).  `newsList` is the combined
operation result for the keyword, `crawl` the pool `_get_additional_news`
would fetch, `manual` the `manual_check` flag and `sendOk` whether the
transport delivers the composed message. -/
def send_news_to_user (quiet : Bool) (ledger : Ledger)
    (newsList : List NewsItem) (manual : Bool) (crawl : List NewsItem)
    (sendOk : Bool) : DeliveryResult :=
  if quiet then ⟨none, ledger, []⟩
  else
    let fresh := newsList.filter (fun n => !is_news_sent ledger n.url)
    let firstFill :=
      if fresh.isEmpty && !newsList.isEmpty then
        get_additional_news ledger crawl 15
      else []
    let newNews := if fresh.isEmpty then firstFill else fresh
    if newNews.isEmpty then
      if manual then
        let additional := get_additional_news ledger crawl 15
        if additional.isEmpty then ⟨none, ledger, []⟩
        else ⟨some additional, ledger, additional⟩
      else ⟨none, ledger, []⟩
    else
      let sorted := sort_news_by_date newNews
      let secondFill :=
        if sorted.length < 15 then
          get_additional_news ledger crawl (15 - sorted.length)
        else []
      let batch :=
        if sorted.length < 15 then
          if secondFill.isEmpty then sorted
          else sort_news_by_date (sorted ++ secondFill)
        else sorted
      if sendOk then ⟨some batch, recordAll ledger batch, firstFill ++ secondFill⟩
      else ⟨some batch, ledger, firstFill ++ secondFill⟩

/-- One (user, keyword) slice of the scheduled cycle `check_news_updates`
(`bot.py` 1149-1171): skip the user entirely during quiet hours, otherwise
run `_send_news_to_user` with `manual_check=False` on the non-empty
combined operation result. -/
def check_news_updates_user (q : Option QuietHours) (cur : Nat)
    (ledger : Ledger) (combined : List NewsItem) (crawl : List NewsItem)
    (sendOk : Bool) : DeliveryResult :=
  if is_quiet_time q cur then ⟨none, ledger, []⟩
  else if combined.isEmpty then ⟨none, ledger, []⟩
  else send_news_to_user (is_quiet_time q cur) ledger combined false crawl sendOk

/-- A row of `pending_stock_alerts` (`database.py` 90-99): `user_id` is its
PRIMARY KEY, so each subscriber has at most one pending alert and
`set_pending_stock_alert` overwrites it (ON CONFLICT DO UPDATE,
`database.py` 300-319). -/
structure PendingAlert where
  level : Int
  athPrice : Int
deriving DecidableEq, Repr

/-- The per-subscriber persistent state of the threshold-alert subsystem:
the `stock_alert_levels` row and the `pending_stock_alerts` row. -/
structure StockState where
  alert : Option AlertState
  pending : Option PendingAlert
deriving DecidableEq, Repr

/-- One subscriber's slice of `check_stock_drop_alerts` (`bot.py`
1957-1996): skip when the nasdaq alert setting is off; evaluate
`should_alert`; during quiet hours store/overwrite the pending alert
instead of sending; otherwise send and persist the new level only on a
confirmed send.  The returned Bool says whether an alert was delivered. -/
def check_stock_user (alertEnabled : Bool) (level athPrice : Int)
    (quiet : Bool) (sendOk : Bool) (s : StockState) : StockState × Bool :=
  if !alertEnabled then (s, false)
  else if !should_alert level athPrice s.alert then (s, false)
  else if quiet then ({ s with pending := some ⟨level, athPrice⟩ }, false)
  else if sendOk then ({ s with alert := some ⟨level, athPrice⟩ }, true)
  else (s, false)

/-- The `quiet:off` callback (`bot.py` 666-695): disabling quiet hours
flushes the pending alert; on a confirmed send the stored alert level is
overwritten with the pending one and the pending alert cleared. -/
def quiet_off_flush (sendOk : Bool) (s : StockState) : StockState × Bool :=
  match s.pending with
  | none => (s, false)
  | some p =>
    if sendOk then (⟨some ⟨p.level, p.athPrice⟩, none⟩, true)
    else (s, false)

/-- The pool backfill selects from: crawled items, URL-deduplicated,
newest first, restricted to those already recorded as seen. -/
def seenPool (ledger : Ledger) (crawl : List NewsItem) : List NewsItem :=
  (sort_news_by_date (dedupeByUrl crawl)).filter (fun n => is_news_sent ledger n.url)

/-- The batch composed on the fresh-matches path of `_send_news_to_user`
(`bot.py` 1376-1387): the sorted fresh items, padded (and re-sorted) with
up to `15 - len` already-seen items when short of the cap of 15. -/
def freshBatch (ledger : Ledger) (crawl : List NewsItem)
    (fresh : List NewsItem) : List NewsItem :=
  if (sort_news_by_date fresh).length < 15 then
    (if (get_additional_news ledger crawl
          (15 - (sort_news_by_date fresh).length)).isEmpty then
      sort_news_by_date fresh
    else
      sort_news_by_date (sort_news_by_date fresh ++
        get_additional_news ledger crawl
          (15 - (sort_news_by_date fresh).length)))
  else sort_news_by_date fresh

/-- The items padded in on the fresh-matches path. -/
def freshFill (ledger : Ledger) (crawl : List NewsItem)
    (fresh : List NewsItem) : List NewsItem :=
  if (sort_news_by_date fresh).length < 15 then
    get_additional_news ledger crawl (15 - (sort_news_by_date fresh).length)
  else []

/-- First index attaining the maximum of `counts` (Python's
`max(keyword_news.keys(), key=lambda k: len(keyword_news[k]))` keeps the
first maximal key in insertion order). -/
def firstMaxIdx (counts : List Nat) : Nat :=
  (List.range counts.length).foldl
    (fun best i => if counts.getD best 0 < counts.getD i 0 then i else best) 0

/-- Per-keyword slot allocation before the remainder step
(`news_crawler.py` 447-465): floor of the proportional share
(`int(ratio * max_results)`, modelled as exact integer flooring), with a
minimum of 1 slot for any keyword with at least one result. -/
def baseAlloc (counts : List Nat) (cap : Nat) : List Nat :=
  counts.map (fun n => if n = 0 then 0 else max ((n * cap) / counts.sum) 1)

/-- The full slot allocation of the simple-OR branch of `search_news`
(`news_crawler.py` 447-475): base allocation, then — only when the first
largest keyword's result list can absorb them — the leftover slots are
added to that keyword. -/
def orAllocate (counts : List Nat) (cap : Nat) : List Nat :=
  if (baseAlloc counts cap).sum < cap then
    (if (baseAlloc counts cap).getD (firstMaxIdx counts) 0 +
          (cap - (baseAlloc counts cap).sum) ≤
        counts.getD (firstMaxIdx counts) 0 then
      (baseAlloc counts cap).set (firstMaxIdx counts)
        ((baseAlloc counts cap).getD (firstMaxIdx counts) 0 +
          (cap - (baseAlloc counts cap).sum))
    else baseAlloc counts cap)
  else baseAlloc counts cap

/-- The final batch of the simple-OR branch (`news_crawler.py` 444-485):
each keyword contributes a prefix of its (deduplicated) result list of
its allocated size, and the concatenation is truncated at the cap. -/
def orSelect (lists : List (List NewsItem)) (cap : Nat) : List NewsItem :=
  if (lists.map List.length).sum = 0 then []
  else
    ((lists.zip (orAllocate (lists.map List.length) cap)).flatMap
      (fun p => p.1.take p.2)).take cap

/-- The OR branch of `apply_operation` (`bot.py` 128-181), used by the
scheduled cycle: concatenate, deduplicate by URL, return whole if within
15; otherwise allocate `int(len/total * 15)` per keyword with no minimum
and no remainder assignment, appending unseen URLs until 15. -/
def apply_operation_or (lists : List (List NewsItem)) : List NewsItem :=
  if (dedupeByUrl lists.flatten).length ≤ 15 then dedupeByUrl lists.flatten
  else
    (lists.foldl (fun result l =>
      if 15 ≤ result.length then result
      else
        (l.take ((l.length * 15) / (lists.map List.length).sum)).foldl
          (fun r news =>
            if 15 ≤ r.length then r
            else if r.any (fun m => m.url == news.url) then r
            else r ++ [news]) result) []).take 15

/-- Five OR-term result lists with sizes 4, 4, 4, 4, 1 and pairwise
distinct URLs: total 17 exceeds the cap 15, and no term is empty. -/
def c2Lists : List (List NewsItem) :=
  [(List.range 4).map (fun i => (⟨i, 0⟩ : NewsItem)),
   (List.range 4).map (fun i => (⟨10 + i, 0⟩ : NewsItem)),
   (List.range 4).map (fun i => (⟨20 + i, 0⟩ : NewsItem)),
   (List.range 4).map (fun i => (⟨30 + i, 0⟩ : NewsItem)),
   [⟨40, 0⟩]]

/-- Two OR-term result lists with sizes 1 and 30 for the scheduled-cycle
allocator `apply_operation`. -/
def c2ListsB : List (List NewsItem) :=
  [[⟨100, 0⟩], (List.range 30).map (fun i => (⟨i, 0⟩ : NewsItem))]

/-- An open cluster of the grouping phase of `filter_similar_news`
(`news_crawler.py` 199-222): the item that opened the cluster (its
representative during grouping) and all members; `similar` in the source
includes the representative itself. -/
structure NewsGroup (α : Type) where
  rep : α
  members : List α

/-- One step of the grouping loop of `filter_similar_news`
(`news_crawler.py` 202-222): the incoming item joins the first open
cluster whose representative is similar at or above the threshold,
otherwise it opens a new cluster.  The title-similarity score `sim`
(difflib SequenceMatcher ratio over normalised titles,
`calculate_similarity`, `news_crawler.py` 181-192) is abstracted as a
parameter returning a rational in [0, 1]; the claims about clustering
constrain only properties of this score such as symmetry. -/
def insertNews (sim : α → α → ℚ) (θ : ℚ) : List (NewsGroup α) → α → List (NewsGroup α)
  | [], x => [⟨x, [x]⟩]
  | g :: gs, x =>
    if θ ≤ sim x g.rep then ⟨g.rep, g.members ++ [x]⟩ :: gs
    else g :: insertNews sim θ gs x

/-- The grouping phase of `filter_similar_news` over the whole input. -/
def groupNews (sim : α → α → ℚ) (θ : ℚ) (l : List α) : List (NewsGroup α) :=
  l.foldl (insertNews sim θ) []

/-- Representative selection (`news_crawler.py` 224-244): the most recent
member from the primary publisher domain (news.naver.com) if the cluster
has one, else the most recent member overall (`_get_latest_news` sorts by
parsed date, newest first, and takes the head). -/
def selectRep (isNaver : α → Bool) (date : α → Nat) (g : NewsGroup α) : α :=
  match (sortDescBy date (g.members.filter isNaver)).head? with
  | some n => n
  | none =>
    match (sortDescBy date g.members).head? with
    | some n => n
    | none => g.rep

/-- Embedding of `filter_similar_news` (`news_crawler.py` 194-247): one output per
cluster, the selected representative paired with `similar_count`, the
cluster's member count. -/
def filter_similar_news (sim : α → α → ℚ) (θ : ℚ) (isNaver : α → Bool)
    (date : α → Nat) (l : List α) : List (α × Nat) :=
  (groupNews sim θ l).map (fun g => (selectRep isNaver date g, g.members.length))

/-- A symmetric similarity score on three items under which greedy
clustering is order-sensitive: items 0-1 and 1-2 are similar (score 1)
but 0-2 are not (score 0). -/
def simEx3 : Fin 3 → Fin 3 → ℚ :=
  fun x y => if x = y then 1 else if x.val + y.val = 1 ∨ x.val + y.val = 3 then 1 else 0

/-- The representative trace of the grouping loop: keeping only each
cluster's opening representative, one step of `insertNews` either leaves
the representative list unchanged (the item joined some cluster) or
appends the item as a new representative. -/
def addRep (sim : α → α → ℚ) (θ : ℚ) (acc : List α) (x : α) : List α :=
  if acc.any (fun r => decide (θ ≤ sim x r)) then acc else acc ++ [x]

/-- The list of cluster representatives produced by grouping `l`. -/
def clusterReps (sim : α → α → ℚ) (θ : ℚ) (l : List α) : List α :=
  l.foldl (addRep sim θ) []

/-- Python's regex `\w` word character, for the character classes this
program's expressions actually contain: ASCII letters and digits,
underscore, and Hangul syllables. -/
def isWordChar (c : Char) : Bool :=
  c.isAlpha || c.isDigit || c = '_' ||
    (0xAC00 ≤ c.toNat && c.toNat ≤ 0xD7A3)

/-- Python `str.lower()` (ASCII case folding; Hangul is caseless). -/
def pyLower (s : List Char) : List Char := s.map Char.toLower

/-- Python `str.strip()`: drop whitespace from both ends. -/
def pyStrip (s : List Char) : List Char :=
  ((s.dropWhile Char.isWhitespace).reverse.dropWhile Char.isWhitespace).reverse

/-- Python's `in` on strings: substring containment (an empty pattern is
always contained). -/
def pyIn (pat : List Char) : List Char → Bool
  | [] => pat.isEmpty
  | c :: rest => pat.isPrefixOf (c :: rest) || pyIn pat rest

/-- The literal of the regex `\band\b`. -/
def andKw : List Char := ['a', 'n', 'd']

/-- The literal of the regex `\bor\b`. -/
def orKw : List Char := ['o', 'r']

/-- Does the lowercase keyword `kw` match at the head of `s`
case-insensitively with a word boundary after it (the keyword's own
characters are word characters, so `\b` before it is the previous
character's business — see `splitWordGo`). -/
def kwHere (kw s : List Char) : Bool :=
  decide ((s.take kw.length).map Char.toLower = kw) &&
    (match s.drop kw.length with
     | [] => true
     | c :: _ => !isWordChar c)

/-- Scanner for `re.split(r'\bkw\b', s, flags=IGNORECASE)`: walk the
string tracking whether the previous character is a word character (the
left half of `\b`), splitting at every boundary-delimited,
case-insensitive occurrence of `kw`.  `fuel` bounds the walk;
`s.length + 1` always suffices. -/
def splitWordGo (kw : List Char) : Nat → Bool → List Char → List Char → List (List Char)
  | 0, _, s, acc => [acc.reverse ++ s]
  | fuel + 1, prevWord, s, acc =>
    match s with
    | [] => [acc.reverse]
    | c :: rest =>
      if !prevWord && kwHere kw (c :: rest) then
        acc.reverse :: splitWordGo kw fuel true ((c :: rest).drop kw.length) []
      else
        splitWordGo kw fuel (isWordChar c) rest (c :: acc)

/-- Embedding of `re.split(r'\bkw\b', s, flags=IGNORECASE)`. -/
def splitWord (kw s : List Char) : List (List Char) :=
  splitWordGo kw (s.length + 1) false s []

/-- Embedding of `re.search(r'\bkw\b', s, flags=IGNORECASE)`: it succeeds iff the split
has at least two parts. -/
def hasWord (kw s : List Char) : Bool := decide (2 ≤ (splitWord kw s).length)

/-- Embedding of `evaluate_simple` inside `evaluate_keyword_expression`
(`news_crawler.py` 59-75): strip; on a word-boundary `or`, split and
recurse into any part; else on `and`, split and require every stripped,
lowercased part to be contained in the text; else plain containment.
`fuel` bounds the or-recursion (parts strictly shrink, so
`expr.length + 1` suffices). -/
def evaluate_simple (textLower : List Char) : Nat → List Char → Bool
  | 0, _ => false
  | fuel + 1, expr =>
    let e := pyStrip expr
    if hasWord orKw e then
      (splitWord orKw e).any (fun part => evaluate_simple textLower fuel (pyStrip part))
    else if hasWord andKw e then
      (splitWord andKw e).all (fun kw => pyIn (pyLower (pyStrip kw)) textLower)
    else
      pyIn (pyLower e) textLower

/-- Longest prefix free of parentheses, with the rest. -/
def spanNonParen (s : List Char) : List Char × List Char :=
  s.span (fun c => c != '(' && c != ')')

/-- The regex search `re.search(r'\(([^()]+)\)', s)`: the leftmost `(`
followed by one or more non-parenthesis characters and `)`; yields the
prefix before the match, the inner group, and the suffix after it.
A `(` whose group is empty or unclosed is skipped, as the regex engine
retries from the next position. -/
def findParenGroup : List Char → Option (List Char × List Char × List Char)
  | [] => none
  | c :: rest =>
    if c = '(' then
      match spanNonParen rest with
      | (inner, ')' :: after) =>
        if inner.isEmpty then
          (findParenGroup rest).map (fun p => (c :: p.1, p.2))
        else some ([], inner, after)
      | _ => (findParenGroup rest).map (fun p => (c :: p.1, p.2))
    else (findParenGroup rest).map (fun p => (c :: p.1, p.2))

/-- Python `str.replace`: replace all non-overlapping occurrences from
the left (`fuel = s.length + 1` suffices for the non-empty patterns
used here). -/
def replaceAll (pat rep : List Char) : Nat → List Char → List Char
  | 0, s => s
  | _ + 1, [] => []
  | fuel + 1, c :: rest =>
    if pat.isPrefixOf (c :: rest) then
      rep ++ replaceAll pat rep fuel ((c :: rest).drop pat.length)
    else c :: replaceAll pat rep fuel rest

/-- The parenthesis-resolution loop of `evaluate_keyword_expression`
(`news_crawler.py` 78-86): while a parenthesis remains and an innermost
group can be found, evaluate it with `evaluate_simple` and substitute
the placeholder `__TRUE__` / `__FALSE__`.  Each iteration removes one
parenthesis pair, so fuel `expr.length` suffices. -/
def parenLoop (textLower : List Char) : Nat → List Char → List Char
  | 0, s => s
  | fuel + 1, s =>
    if s.contains '(' then
      match findParenGroup s with
      | some (before, inner, after) =>
        parenLoop textLower fuel
          (before ++
            (if evaluate_simple textLower (inner.length + 1) inner then
              "__TRUE__".toList else "__FALSE__".toList) ++ after)
      | none => s
    else s

/-- Per-part evaluation inside `final_evaluate` (`news_crawler.py`
96-119): a resolved placeholder `True`/`False`, or substring
containment. -/
def finalPart (textLower : List Char) (part : List Char) : Bool :=
  let p := pyStrip part
  if p = "True".toList then true
  else if p = "False".toList then false
  else pyIn (pyLower p) textLower

/-- Embedding of `final_evaluate` (`news_crawler.py` 89-128): strip, turn the
placeholders into `True`/`False`, then apply the flat OR (any) / AND
(all) rule, or evaluate the single remaining value. -/
def final_evaluate (textLower : List Char) (expr : List Char) : Bool :=
  let e0 := pyStrip expr
  let e1 := replaceAll "__TRUE__".toList "True".toList (e0.length + 1) e0
  let e := replaceAll "__FALSE__".toList "False".toList (e1.length + 1) e1
  if hasWord orKw e then (splitWord orKw e).any (finalPart textLower)
  else if hasWord andKw e then (splitWord andKw e).all (finalPart textLower)
  else finalPart textLower e

/-- Embedding of `evaluate_keyword_expression` (`news_crawler.py` 44-130). -/
def evaluate_keyword_expression (expr text : List Char) : Bool :=
  let textLower := pyLower text
  if !(hasWord andKw expr || hasWord orKw expr) then
    pyIn (pyLower expr) textLower
  else
    final_evaluate textLower (parenLoop textLower expr.length expr)

/-- The spec's matching primitive: the text contains the term as a
case-insensitive substring. -/
def containsCI (pat text : List Char) : Bool := pyIn (pyLower pat) (pyLower text)

/-! ## Theorems -/

/-- C6: the threshold-alert decision is exactly: alert iff
`currentLevel ≥ 5` and (no stored state, or the stored reference peak
differs from the observed peak, or `currentLevel` strictly exceeds the
stored `lastLevel`); and with stored peak 100 and lastLevel 12, a new
peak of 110 re-arms alerting from level 5. -/
theorem should_alert_spec :
    (∀ (lvl p : Int) (st : Option AlertState),
      should_alert lvl p st = true ↔
        5 ≤ lvl ∧ (st = none ∨
          ∃ s, st = some s ∧ (s.athPrice ≠ p ∨ s.lastLevel < lvl))) ∧
    should_alert 5 110 (some ⟨12, 100⟩) = true := by
  constructor
  · intro lvl p st
    match st with
    | none => simp [should_alert]
    | some s =>
      by_cases hp : s.athPrice = p <;> by_cases hl : s.lastLevel < lvl <;>
        by_cases h5 : (5 : Int) ≤ lvl <;>
        simp [should_alert, hp, hl, h5]
  · decide

/-- C5: at most 3 attempts; backoff delays are exactly 2s then 4s and occur
only after transient failures; a blocked receiver fails immediately and is
marked blocked; any other error fails immediately without retry. -/
theorem send_retry_policy (outcome : Nat → SendOutcome) :
    (send_message_to_user outcome).attempts ≤ 3 ∧
    (send_message_to_user outcome).delays =
      [2, 4].take ((send_message_to_user outcome).attempts - 1) ∧
    (∀ k, k + 1 < (send_message_to_user outcome).attempts →
      outcome k = .transientErr) ∧
    (∀ k, k < (send_message_to_user outcome).attempts →
      outcome k = .blocked →
        (send_message_to_user outcome).ok = false ∧
        (send_message_to_user outcome).attempts = k + 1 ∧
        (send_message_to_user outcome).markedBlocked = true) ∧
    (∀ k, k < (send_message_to_user outcome).attempts →
      outcome k = .otherErr →
        (send_message_to_user outcome).ok = false ∧
        (send_message_to_user outcome).attempts = k + 1 ∧
        (send_message_to_user outcome).markedBlocked = false) ∧
    (∀ k, k < (send_message_to_user outcome).attempts →
      outcome k = .success →
        (send_message_to_user outcome).ok = true ∧
        (send_message_to_user outcome).attempts = k + 1) := by
  rcases h0 : outcome 0 <;> rcases h1 : outcome 1 <;> rcases h2 : outcome 2 <;>
    refine ⟨?_, ?_, ?_, ?_, ?_, ?_⟩ <;>
    simp [send_message_to_user, sendLoop, h0, h1, h2] <;>
    (intro k hk
     try intro h
     have hx : k = 0 ∨ k = 1 ∨ k = 2 := by omega
     rcases hx with rfl | rfl | rfl <;> first | omega | simp_all)

/-- Witness for C5, at the spec's own scenario: transient failures on
attempts 1-2 and success on attempt 3 give exactly 3 attempts with
backoff delays 2s then 4s, and a blocked receiver on attempt 1 gives
immediate failure with the subscriber marked blocked. -/
theorem send_retry_policy_witness :
    (send_message_to_user
        (fun k => if k < 2 then .transientErr else .success)).delays =
      [2, 4].take ((send_message_to_user
        (fun k => if k < 2 then .transientErr else .success)).attempts - 1) ∧
    (send_message_to_user (fun _ => .blocked)).ok = false ∧
    (send_message_to_user (fun _ => .blocked)).attempts = 0 + 1 ∧
    (send_message_to_user (fun _ => .blocked)).markedBlocked = true := by
  refine ⟨(send_retry_policy _).2.1, ?_⟩
  exact (send_retry_policy (fun _ => .blocked)).2.2.2.1 0 (by decide) rfl

/-- C7 counterexample: starting from stored state (lastLevel 5, peak 100),
a quiet-hours check at level 7 stores a pending alert; a later non-quiet
check at level 9 is delivered and persists lastLevel 9; flushing the stale
pending alert when quiet hours are disabled then overwrites lastLevel back
down to 7 while the reference peak stays 100 — so `lastLevel` does
decrease with the peak unchanged. -/
theorem alert_level_monotonicity_counterexample :
    (check_stock_user true 7 100 true true ⟨some ⟨5, 100⟩, none⟩).1 =
      ⟨some ⟨5, 100⟩, some ⟨7, 100⟩⟩ ∧
    (check_stock_user true 9 100 false true
        ⟨some ⟨5, 100⟩, some ⟨7, 100⟩⟩).1 =
      ⟨some ⟨9, 100⟩, some ⟨7, 100⟩⟩ ∧
    (quiet_off_flush true ⟨some ⟨9, 100⟩, some ⟨7, 100⟩⟩).1 =
      ⟨some ⟨7, 100⟩, none⟩ ∧
    ((7 : Int) < 9 ∧ (100 : Int) = 100) := by
  decide

/-- C7 amended: within a single scheduled threshold check `lastLevel`
never decreases while the reference peak is unchanged (and quiet-hours
pending storage leaves the stored level untouched); a pending-alert flush
preserves this only when the pending level is at least the stored one —
a stale flush can lower it (see the counterexample). -/
theorem alert_level_monotone_per_step (enabled : Bool) (level peak : Int)
    (quiet ok : Bool) (s : StockState) :
    (∀ a a', s.alert = some a →
      (check_stock_user enabled level peak quiet ok s).1.alert = some a' →
      a'.athPrice = a.athPrice → a.lastLevel ≤ a'.lastLevel) ∧
    (quiet = true → (check_stock_user enabled level peak quiet ok s).1.alert = s.alert) ∧
    (∀ p a a', s.pending = some p → s.alert = some a → a.lastLevel ≤ p.level →
      (quiet_off_flush ok s).1.alert = some a' →
      a.lastLevel ≤ a'.lastLevel) := by
  refine ⟨?_, ?_, ?_⟩
  · intro a a' hs hs' hpeak
    by_cases he : enabled
    · by_cases hsa : should_alert level peak s.alert
      · by_cases hq : quiet
        · simp only [check_stock_user, he, hsa, hq] at hs'
          simp at hs'
          rw [hs] at hs'
          simp_all
        · by_cases hk : ok
          · simp only [check_stock_user, he, hsa, hq, hk] at hs'
            simp at hs'
            have ha' : a' = ⟨level, peak⟩ := by simp_all
            subst ha'
            simp only at hpeak ⊢
            subst hpeak
            rw [hs] at hsa
            simp only [should_alert] at hsa
            split_ifs at hsa with h1 h2
            · exact absurd rfl h1
            · exact le_of_lt h2.1
          · simp only [check_stock_user, he, hsa, hq, hk] at hs'
            simp at hs'
            rw [hs] at hs'
            simp_all
      · simp only [check_stock_user, he] at hs'
        simp [hsa] at hs'
        rw [hs] at hs'
        simp_all
    · simp only [check_stock_user] at hs'
      simp [he] at hs'
      rw [hs] at hs'
      simp_all
  · intro hq
    subst hq
    by_cases he : enabled <;> by_cases hsa : should_alert level peak s.alert <;>
      simp [check_stock_user, he, hsa]
  · intro p a a' hp ha hle hflush
    rcases s with ⟨salert, spending⟩
    simp only at hp ha
    subst hp
    subst ha
    by_cases hk : ok
    · simp [quiet_off_flush, hk] at hflush
      subst hflush
      simpa using hle
    · simp [quiet_off_flush, hk] at hflush
      simp_all

/-- Witness for C7's amended theorem: a concrete non-quiet check at level
9 over stored level 5 under the same peak, and a flush of a pending level
9 over stored level 5. -/
theorem alert_level_monotone_per_step_witness :
    (5 : Int) ≤ 9 ∧ (100 : Int) = 100 ∧
    ((check_stock_user true 9 100 false true ⟨some ⟨5, 100⟩, none⟩).1.alert =
      some ⟨9, 100⟩) ∧
    ((quiet_off_flush true ⟨some ⟨5, 100⟩, some ⟨9, 100⟩⟩).1.alert =
      some ⟨9, 100⟩) := by
  refine ⟨?_, rfl, by decide, by decide⟩
  exact (alert_level_monotone_per_step true 9 100 false true
      ⟨some ⟨5, 100⟩, none⟩).1 ⟨5, 100⟩ ⟨9, 100⟩ rfl (by decide) rfl

/-- C9: during an enabled quiet window — including wraparound windows,
where `startTime > endTime` covers times `≥ startTime` or `≤ endTime` —
the automatic news cycle sends no message and leaves the delivery ledger
unchanged (so the matches stay unseen), and a firing threshold alert is
stored/overwritten as the subscriber's single pending alert instead of
being sent or persisted. -/
theorem quiet_window_suppression :
    (∀ (qh : QuietHours) (cur : Nat), qh.enabled = true →
      qh.endTime < qh.startTime →
      (is_quiet_time (some qh) cur = true ↔
        (qh.startTime ≤ cur ∨ cur ≤ qh.endTime))) ∧
    (∀ (q : Option QuietHours) (cur : Nat) (ledger : Ledger)
        (combined crawl : List NewsItem) (ok : Bool),
      is_quiet_time q cur = true →
        (check_news_updates_user q cur ledger combined crawl ok).message = none ∧
        (check_news_updates_user q cur ledger combined crawl ok).ledger = ledger) ∧
    (∀ (enabled : Bool) (level peak : Int) (ok : Bool) (s : StockState),
      enabled = true → should_alert level peak s.alert = true →
        check_stock_user enabled level peak true ok s =
          ({ s with pending := some ⟨level, peak⟩ }, false)) := by
  refine ⟨?_, ?_, ?_⟩
  · intro qh cur hen hwrap
    have : ¬ qh.startTime ≤ qh.endTime := by omega
    simp [is_quiet_time, hen, this]
  · intro q cur ledger combined crawl ok hq
    simp [check_news_updates_user, hq]
  · intro enabled level peak ok s hen hsa
    simp [check_stock_user, hen, hsa]

/-- Witness for C9: a wraparound window 22:00-07:00 (1320-420 minutes) is
active at 23:30 (1410), and under it the cycle sends nothing, changes no
ledger, and stores the firing alert as the pending alert. -/
theorem quiet_window_suppression_witness :
    (is_quiet_time (some ⟨1320, 420, true⟩) 1410 = true ↔
      (1320 ≤ 1410 ∨ 1410 ≤ 420)) ∧
    (check_news_updates_user (some ⟨1320, 420, true⟩) 1410 [7]
        [⟨3, 1⟩] [] true).message = none ∧
    (check_news_updates_user (some ⟨1320, 420, true⟩) 1410 [7]
        [⟨3, 1⟩] [] true).ledger = [7] ∧
    (check_stock_user true 6 100 true true ⟨none, none⟩ =
      (⟨none, some ⟨6, 100⟩⟩, false)) := by
  refine ⟨quiet_window_suppression.1 ⟨1320, 420, true⟩ 1410 rfl (by decide), ?_, ?_, ?_⟩
  · exact (quiet_window_suppression.2.1 (some ⟨1320, 420, true⟩) 1410 [7]
      [⟨3, 1⟩] [] true (by decide)).1
  · exact (quiet_window_suppression.2.1 (some ⟨1320, 420, true⟩) 1410 [7]
      [⟨3, 1⟩] [] true (by decide)).2
  · exact quiet_window_suppression.2.2 true 6 100 true ⟨none, none⟩ rfl (by decide)

/-- Membership in a single ledger insert. -/
theorem mem_mark_news_sent (ledger : Ledger) (v u : Nat) :
    u ∈ mark_news_sent ledger v ↔ u ∈ ledger ∨ u = v := by
  by_cases hv : v ∈ ledger
  · simp only [mark_news_sent]
    rw [if_pos (by simpa using hv)]
    constructor
    · exact Or.inl
    · rintro (hu | rfl)
      · exact hu
      · exact hv
  · simp only [mark_news_sent]
    rw [if_neg (by simpa using hv)]
    simp [List.mem_append]

/-- Membership in a recorded batch. -/
theorem mem_recordAll (batch : List NewsItem) (ledger : Ledger) (u : Nat) :
    u ∈ recordAll ledger batch ↔ u ∈ ledger ∨ ∃ n ∈ batch, n.url = u := by
  induction batch generalizing ledger with
  | nil => simp [recordAll]
  | cons n t ih =>
    have step : recordAll ledger (n :: t) = recordAll (mark_news_sent ledger n.url) t := rfl
    rw [step, ih, mem_mark_news_sent]
    constructor
    · rintro ((hu | rfl) | ⟨m, hm, rfl⟩)
      · exact Or.inl hu
      · exact Or.inr ⟨n, by simp⟩
      · exact Or.inr ⟨m, by simp [hm]⟩
    · rintro (hu | ⟨m, hm, rfl⟩)
      · exact Or.inl (Or.inl hu)
      · rcases List.mem_cons.1 hm with rfl | hmt
        · exact Or.inl (Or.inr rfl)
        · exact Or.inr ⟨m, hmt, rfl⟩

/-- Every item selected for backfill is already recorded. -/
theorem mem_get_additional_news (ledger : Ledger) (crawl : List NewsItem)
    (k : Nat) (n : NewsItem) (h : n ∈ get_additional_news ledger crawl k) :
    is_news_sent ledger n.url = true := by
  unfold get_additional_news at h
  split_ifs at h with hc
  · simp at h
  · exact (List.mem_filter.1 (List.mem_of_mem_take h)).2

theorem mem_insertDescBy (key : α → Nat) (x y : α) (l : List α) :
    y ∈ insertDescBy key x l ↔ y = x ∨ y ∈ l := by
  induction l with
  | nil => simp [insertDescBy]
  | cons a t ih =>
    simp only [insertDescBy]
    split_ifs with h
    · simp
    · simp only [List.mem_cons, ih]
      tauto

theorem length_insertDescBy (key : α → Nat) (x : α) (l : List α) :
    (insertDescBy key x l).length = l.length + 1 := by
  induction l with
  | nil => rfl
  | cons a t ih =>
    simp only [insertDescBy]
    split_ifs with h
    · rfl
    · simp [ih]

theorem mem_sortDescBy (key : α → Nat) (l : List α) (y : α) :
    y ∈ sortDescBy key l ↔ y ∈ l := by
  induction l with
  | nil => simp [sortDescBy]
  | cons a t ih =>
    simp only [sortDescBy, mem_insertDescBy, ih, List.mem_cons]

theorem length_sortDescBy (key : α → Nat) (l : List α) :
    (sortDescBy key l).length = l.length := by
  induction l with
  | nil => rfl
  | cons a t ih =>
    simp only [sortDescBy, length_insertDescBy, ih, List.length_cons]

theorem pairwise_insertDescBy (key : α → Nat) (x : α) (l : List α)
    (h : List.Pairwise (fun a b => key b ≤ key a) l) :
    List.Pairwise (fun a b => key b ≤ key a) (insertDescBy key x l) := by
  induction l with
  | nil => simp [insertDescBy]
  | cons a t ih =>
    simp only [insertDescBy]
    rcases h with _ | ⟨ha, ht⟩
    split_ifs with hk
    · refine List.Pairwise.cons ?_ (List.Pairwise.cons ha ht)
      intro b hb
      rcases List.mem_cons.1 hb with rfl | hbt
      · exact hk
      · exact le_trans (ha b hbt) hk
    · refine List.Pairwise.cons ?_ (ih ht)
      intro b hb
      rcases (mem_insertDescBy key x b t).1 hb with rfl | hbt
      · omega
      · exact ha b hbt

theorem pairwise_sortDescBy (key : α → Nat) (l : List α) :
    List.Pairwise (fun a b => key b ≤ key a) (sortDescBy key l) := by
  induction l with
  | nil => simp [sortDescBy]
  | cons a t ih => exact pairwise_insertDescBy key a (sortDescBy key t) ih

theorem get_additional_news_eq_seenPool (ledger : Ledger)
    (crawl : List NewsItem) (k : Nat) :
    get_additional_news ledger crawl k = (seenPool ledger crawl).take k := by
  unfold get_additional_news seenPool
  split_ifs with hc
  · have : crawl = [] := List.isEmpty_iff.1 hc
    subst this
    simp [dedupeByUrl, sort_news_by_date, sortDescBy]
  · rfl

theorem pairwise_seenPool (ledger : Ledger) (crawl : List NewsItem) :
    List.Pairwise (fun a b : NewsItem => b.date ≤ a.date)
      (seenPool ledger crawl) := by
  exact List.Pairwise.filter _ (pairwise_sortDescBy (fun n : NewsItem => n.date) _)

/-- C3 counterexample: a scheduled automatic check (`manual_check=False`,
driven by `check_news_updates`) whose fresh matches are zero but whose
crawl pool is non-empty does perform backfill — it even pads the same
seen item twice — and sends a message, contradicting "backfill is never
performed during a scheduled automatic check". -/
theorem backfill_automatic_counterexample :
    (check_news_updates_user none 0 [1] [⟨1, 10⟩] [⟨1, 10⟩] true).backfilled =
      [⟨1, 10⟩, ⟨1, 10⟩] ∧
    (check_news_updates_user none 0 [1] [⟨1, 10⟩] [⟨1, 10⟩] true).backfilled ≠ [] ∧
    (check_news_updates_user none 0 [1] [⟨1, 10⟩] [⟨1, 10⟩] true).message ≠ none := by
  decide

theorem backfill_conj1 (ledger : Ledger) (newsList crawl : List NewsItem)
    (sendOk : Bool)
    (hfresh : newsList.filter (fun n => !is_news_sent ledger n.url) ≠ []) :
    send_news_to_user false ledger newsList true crawl sendOk =
      send_news_to_user false ledger newsList false crawl sendOk := by
  have h1 : (newsList.filter (fun n => !is_news_sent ledger n.url)).isEmpty = false := by
    simpa [List.isEmpty_iff] using hfresh
  simp [send_news_to_user, h1]

set_option maxHeartbeats 2000000 in
theorem backfill_conj2 (ledger : Ledger) (newsList crawl : List NewsItem)
    (manual : Bool) (sendOk : Bool) :
    ∀ n ∈ (send_news_to_user false ledger newsList manual crawl sendOk).backfilled,
      is_news_sent ledger n.url = true := by
  intro n hn
  simp only [send_news_to_user] at hn
  split_ifs at hn <;> dsimp only at hn <;>
    (try simp only [List.mem_append] at hn) <;>
    first
    | exact mem_get_additional_news _ _ _ _ hn
    | (rcases hn with h | h <;>
       first
       | exact mem_get_additional_news _ _ _ _ h
       | simp at h)

set_option maxHeartbeats 2000000 in
theorem backfill_conj3 (ledger : Ledger) (newsList crawl : List NewsItem)
    (manual : Bool) (sendOk : Bool) :
    ∀ u ∈ (send_news_to_user false ledger newsList manual crawl sendOk).ledger,
      u ∈ ledger ∨ ∃ n ∈ newsList, is_news_sent ledger n.url = false ∧ n.url = u := by
  intro u hu
  have seenCase : ∀ (j : Nat) (m : NewsItem), m ∈ get_additional_news ledger crawl j →
      m.url ∈ ledger := fun j m hm => by
    simpa [is_news_sent] using mem_get_additional_news ledger crawl j m hm
  have freshCase : ∀ m : NewsItem,
      m ∈ newsList.filter (fun x => !is_news_sent ledger x.url) →
      ∃ k ∈ newsList, is_news_sent ledger k.url = false ∧ k.url = m.url := by
    intro m hm
    refine ⟨m, (List.mem_filter.1 hm).1, ?_, rfl⟩
    simpa using (List.mem_filter.1 hm).2
  simp only [send_news_to_user] at hu
  split_ifs at hu <;> dsimp only at hu <;>
    first
    | exact Or.inl hu
    | (rcases (mem_recordAll _ _ _).1 hu with h | ⟨n, hn, rfl⟩
       · exact Or.inl h
       · simp only [sort_news_by_date, mem_sortDescBy, List.mem_append] at hn
         first
         | (rcases hn with hn | hn
            · first
              | exact Or.inr (freshCase n hn)
              | exact Or.inl (seenCase _ n hn)
              | simp at hn
            · exact Or.inl (seenCase _ n hn))
         | exact Or.inr (freshCase n hn)
         | exact Or.inl (seenCase _ n hn))

theorem isEmpty_false_of_ne_nil {l : List α} (h : l ≠ []) : l.isEmpty = false := by
  simpa [List.isEmpty_iff] using h

theorem length_sort_news_by_date (l : List NewsItem) :
    (sort_news_by_date l).length = l.length :=
  length_sortDescBy _ _

set_option maxHeartbeats 2000000 in
theorem send_news_to_user_fresh (ledger : Ledger) (newsList crawl : List NewsItem)
    (manual : Bool) (sendOk : Bool)
    (h1 : (newsList.filter (fun n => !is_news_sent ledger n.url)).isEmpty = false) :
    send_news_to_user false ledger newsList manual crawl sendOk =
      if sendOk then
        ⟨some (freshBatch ledger crawl (newsList.filter (fun n => !is_news_sent ledger n.url))),
         recordAll ledger (freshBatch ledger crawl (newsList.filter (fun n => !is_news_sent ledger n.url))),
         freshFill ledger crawl (newsList.filter (fun n => !is_news_sent ledger n.url))⟩
      else
        ⟨some (freshBatch ledger crawl (newsList.filter (fun n => !is_news_sent ledger n.url))),
         ledger,
         freshFill ledger crawl (newsList.filter (fun n => !is_news_sent ledger n.url))⟩ := by
  simp only [send_news_to_user, freshBatch, freshFill, h1]
  split_ifs <;> simp_all

set_option maxHeartbeats 1000000 in
theorem backfill_conj4 (ledger : Ledger) (newsList crawl : List NewsItem)
    (manual : Bool) (sendOk : Bool)
    (hfresh : newsList.filter (fun n => !is_news_sent ledger n.url) ≠ [])
    (hlen : (newsList.filter (fun n => !is_news_sent ledger n.url)).length < 15) :
    List.Pairwise (fun a b : NewsItem => b.date ≤ a.date)
      (send_news_to_user false ledger newsList manual crawl sendOk).backfilled ∧
    ∀ b, (send_news_to_user false ledger newsList manual crawl sendOk).message = some b →
      b.length = (newsList.filter (fun n => !is_news_sent ledger n.url)).length +
        min (15 - (newsList.filter (fun n => !is_news_sent ledger n.url)).length)
          (seenPool ledger crawl).length := by
  have h1 : (newsList.filter (fun n => !is_news_sent ledger n.url)).isEmpty = false :=
    isEmpty_false_of_ne_nil hfresh
  rw [send_news_to_user_fresh ledger newsList crawl manual sendOk h1]
  have hsortlen :
      (sort_news_by_date (newsList.filter (fun n => !is_news_sent ledger n.url))).length =
        (newsList.filter (fun n => !is_news_sent ledger n.url)).length :=
    length_sortDescBy _ _
  have hlt :
      (sort_news_by_date (newsList.filter (fun n => !is_news_sent ledger n.url))).length < 15 := by
    rw [hsortlen]; exact hlen
  have hsf := get_additional_news_eq_seenPool ledger crawl
    (15 - (sort_news_by_date (newsList.filter (fun n => !is_news_sent ledger n.url))).length)
  have hpair : List.Pairwise (fun a b : NewsItem => b.date ≤ a.date)
      (freshFill ledger crawl (newsList.filter (fun n => !is_news_sent ledger n.url))) := by
    rw [freshFill, if_pos hlt, hsf]
    exact List.Pairwise.sublist (List.take_sublist _ _) (pairwise_seenPool ledger crawl)
  have hblen :
      (freshBatch ledger crawl (newsList.filter (fun n => !is_news_sent ledger n.url))).length =
        (newsList.filter (fun n => !is_news_sent ledger n.url)).length +
          min (15 - (newsList.filter (fun n => !is_news_sent ledger n.url)).length)
            (seenPool ledger crawl).length := by
    rw [freshBatch, if_pos hlt]
    split_ifs with hsE
    · have hnil : seenPool ledger crawl = [] := by
        rcases (List.take_eq_nil_iff).1 (hsf ▸ List.isEmpty_iff.1 hsE) with h | h
        · omega
        · exact h
      simp [hnil, hsortlen]
    · rw [length_sort_news_by_date, List.length_append, hsf,
        List.length_take, hsortlen]
  cases sendOk <;> simp only [if_pos, if_neg, Bool.false_eq_true, Bool.true_eq_false, ite_true,
    ite_false, reduceIte] <;>
    exact ⟨hpair, fun b hb => by
      have hbb := Option.some.inj hb
      rw [← hbb, hblen]⟩

theorem ledger_commit_only_after_send_a (quiet : Bool) (ledger : Ledger)
    (newsList : List NewsItem) (manual : Bool) (crawl : List NewsItem) :
    ((send_news_to_user quiet ledger newsList manual crawl false).ledger = ledger) := by
  simp only [send_news_to_user]
  split_ifs <;> first | rfl | exact False.elim (by assumption)

theorem ledger_commit_only_after_send_b (quiet : Bool) (ledger : Ledger)
    (newsList : List NewsItem) (manual : Bool) (crawl : List NewsItem)
    (sendOk : Bool)
    (hch : (send_news_to_user quiet ledger newsList manual crawl sendOk).ledger ≠ ledger) :
    sendOk = true := by
  by_cases hOk : sendOk = true
  · exact hOk
  · have hf : sendOk = false := by
      cases sendOk
      · rfl
      · exact absurd rfl hOk
    subst hf
    exact absurd (ledger_commit_only_after_send_a quiet ledger newsList manual crawl) hch

set_option maxHeartbeats 2000000 in
theorem ledger_commit_only_after_send_c (quiet : Bool) (ledger : Ledger)
    (newsList : List NewsItem) (manual : Bool) (crawl : List NewsItem)
    (b : List NewsItem)
    (hb : (send_news_to_user quiet ledger newsList manual crawl true).message = some b) :
    ∀ n ∈ b, n.url ∈ (send_news_to_user quiet ledger newsList manual crawl true).ledger := by
  intro n hn
  simp only [send_news_to_user] at hb ⊢
  split_ifs at hb ⊢ <;>
    simp only [Option.some.injEq, reduceCtorEq] at hb <;>
    first
    | exact False.elim hb
    | (subst hb
       first
       | exact (mem_recordAll _ _ _).2 (Or.inr ⟨n, hn, rfl⟩)
       | (have hsent := mem_get_additional_news ledger crawl 15 n hn
          simpa [is_news_sent] using hsent))

set_option maxHeartbeats 2000000 in
theorem ledger_commit_only_after_send_d (quiet : Bool) (ledger : Ledger)
    (newsList : List NewsItem) (manual : Bool) (crawl : List NewsItem)
    (sendOk : Bool) (u : Nat)
    (hu : u ∈ (send_news_to_user quiet ledger newsList manual crawl sendOk).ledger) :
    u ∈ ledger ∨ ∃ b n,
      (send_news_to_user quiet ledger newsList manual crawl sendOk).message = some b ∧
      n ∈ b ∧ n.url = u := by
  simp only [send_news_to_user] at hu ⊢
  split_ifs at hu ⊢ <;>
    first
    | exact Or.inl hu
    | (rcases (mem_recordAll _ _ _).1 hu with h | ⟨n, hn, rfl⟩
       · exact Or.inl h
       · exact Or.inr ⟨_, n, rfl, hn, rfl⟩)

/-- C3 amended: backfill with already-seen items happens for any check —
manual or scheduled automatic alike — whose fresh matches fall short of
the cap of 15 (the `manual_check` flag only affects the fallback when
there are no fresh matches and backfill finds nothing); backfilled items
are always already-recorded ones, new DeliveryRecords can only come from
fresh (unseen) items of the batch, and on a check with a non-zero number
of fresh matches below the cap the padding is selected most-recent-first
from the seen pool until the batch reaches the cap or the pool is
exhausted. -/
theorem backfill_policy_amended (ledger : Ledger)
    (newsList crawl : List NewsItem) (manual : Bool) (sendOk : Bool) :
    (newsList.filter (fun n => !is_news_sent ledger n.url) ≠ [] →
      send_news_to_user false ledger newsList true crawl sendOk =
        send_news_to_user false ledger newsList false crawl sendOk) ∧
    (∀ n ∈ (send_news_to_user false ledger newsList manual crawl sendOk).backfilled,
      is_news_sent ledger n.url = true) ∧
    (∀ u ∈ (send_news_to_user false ledger newsList manual crawl sendOk).ledger,
      u ∈ ledger ∨ ∃ n ∈ newsList, is_news_sent ledger n.url = false ∧ n.url = u) ∧
    (newsList.filter (fun n => !is_news_sent ledger n.url) ≠ [] →
      (newsList.filter (fun n => !is_news_sent ledger n.url)).length < 15 →
      List.Pairwise (fun a b : NewsItem => b.date ≤ a.date)
        (send_news_to_user false ledger newsList manual crawl sendOk).backfilled ∧
      ∀ b, (send_news_to_user false ledger newsList manual crawl sendOk).message = some b →
        b.length = (newsList.filter (fun n => !is_news_sent ledger n.url)).length +
          min (15 - (newsList.filter (fun n => !is_news_sent ledger n.url)).length)
            (seenPool ledger crawl).length) :=
  ⟨fun h => backfill_conj1 ledger newsList crawl sendOk h,
   backfill_conj2 ledger newsList crawl manual sendOk,
   backfill_conj3 ledger newsList crawl manual sendOk,
   fun h hl => backfill_conj4 ledger newsList crawl manual sendOk h hl⟩

/-- Witness for C3's amended theorem: one fresh item (url 1) over a seen
pool containing the recorded url 2; the batch pads to length 2, the pad
is the seen item, and the only new record is the fresh url. -/
theorem backfill_policy_amended_witness :
    (send_news_to_user false [2] [⟨1, 5⟩] true [⟨2, 9⟩] true =
      send_news_to_user false [2] [⟨1, 5⟩] false [⟨2, 9⟩] true) ∧
    ([⟨1, 5⟩] : List NewsItem).filter (fun n => !is_news_sent [2] n.url) ≠ [] ∧
    (∀ b, (send_news_to_user false [2] [⟨1, 5⟩] false [⟨2, 9⟩] true).message = some b →
      b.length = 2) := by
  refine ⟨(backfill_policy_amended [2] [⟨1, 5⟩] [⟨2, 9⟩] false true).1 (by decide),
    by decide, ?_⟩
  intro b hb
  have h := ((backfill_policy_amended [2] [⟨1, 5⟩] [⟨2, 9⟩] false true).2.2.2
    (by decide) (by decide)).2 b hb
  simpa using h

/-- C4: the delivery ledger is committed only after a confirmed
successful send: a failed send leaves the ledger unchanged for the whole
batch; on a success every item of the sent batch has a DeliveryRecord
afterwards; any ledger change implies the send succeeded; and every
record present afterwards is an old record or a record of an item of the
sent batch. -/
theorem delivery_ledger_atomic (quiet : Bool) (ledger : Ledger)
    (newsList : List NewsItem) (manual : Bool) (crawl : List NewsItem)
    (sendOk : Bool) :
    ((send_news_to_user quiet ledger newsList manual crawl false).ledger = ledger) ∧
    ((send_news_to_user quiet ledger newsList manual crawl sendOk).ledger ≠ ledger →
      sendOk = true) ∧
    (∀ b, (send_news_to_user quiet ledger newsList manual crawl true).message = some b →
      ∀ n ∈ b, n.url ∈ (send_news_to_user quiet ledger newsList manual crawl true).ledger) ∧
    (∀ u, u ∈ (send_news_to_user quiet ledger newsList manual crawl sendOk).ledger →
      u ∈ ledger ∨ ∃ b n,
        (send_news_to_user quiet ledger newsList manual crawl sendOk).message = some b ∧
        n ∈ b ∧ n.url = u) :=
  ⟨ledger_commit_only_after_send_a quiet ledger newsList manual crawl,
   ledger_commit_only_after_send_b quiet ledger newsList manual crawl sendOk,
   ledger_commit_only_after_send_c quiet ledger newsList manual crawl,
   ledger_commit_only_after_send_d quiet ledger newsList manual crawl sendOk⟩

/-- Witness for C4: a failed send of one fresh item leaves the ledger
empty; a successful send of the same batch records its url. -/
theorem delivery_ledger_atomic_witness :
    (send_news_to_user false [] [⟨1, 0⟩] false [] false).ledger = [] ∧
    true = true ∧
    (1 : Nat) ∈ (send_news_to_user false [] [⟨1, 0⟩] false [] true).ledger := by
  refine ⟨(delivery_ledger_atomic false [] [⟨1, 0⟩] false [] false).1, ?_, ?_⟩
  · exact (delivery_ledger_atomic false [] [⟨1, 0⟩] false [] true).2.1 (by decide)
  · exact (delivery_ledger_atomic false [] [⟨1, 0⟩] false [] true).2.2.1
      [⟨1, 0⟩] (by decide) ⟨1, 0⟩ (by decide)

theorem getD_map_nat (f : Nat → Nat) :
    ∀ (l : List Nat) (i : Nat), i < l.length → (l.map f).getD i 0 = f (l.getD i 0) := by
  intro l
  induction l with
  | nil => intro i h; simp at h
  | cons a t ih =>
    intro i h
    cases i with
    | zero => simp
    | succ j =>
      simp only [List.map_cons, List.getD_cons_succ]
      exact ih j (by simpa using h)

theorem getD_length_lists :
    ∀ (lists : List (List NewsItem)) (i : Nat),
      (lists.map List.length).getD i 0 = (lists.getD i []).length := by
  intro lists
  induction lists with
  | nil => intro i; cases i <;> simp
  | cons a t ih =>
    intro i
    cases i with
    | zero => simp
    | succ j => simpa using ih j

theorem sum_set_nat :
    ∀ (l : List Nat) (i v : Nat), i < l.length →
      (l.set i v).sum + l.getD i 0 = l.sum + v := by
  intro l
  induction l with
  | nil => intro i v h; simp at h
  | cons a t ih =>
    intro i v h
    cases i with
    | zero => simp [List.set]; omega
    | succ j =>
      have := ih j v (by simpa using h)
      simp only [List.set, List.getD_cons_succ, List.sum_cons]
      omega

theorem getD_set_nat (l : List Nat) (i j v : Nat) :
    (l.set i v).getD j 0 = if i = j ∧ i < l.length then v else l.getD j 0 := by
  have h1 : (l.set i v).getD j 0 = ((l.set i v)[j]?).getD 0 := by
    simp [List.getD]
  have h2 : l.getD j 0 = (l[j]?).getD 0 := by
    simp [List.getD]
  rw [h1, h2, List.getElem?_set]
  by_cases hij : i = j
  · subst hij
    by_cases hl : i < l.length
    · simp [hl]
    · simp [hl, List.getElem?_eq_none (by omega : l.length ≤ i)]
  · simp [hij]

theorem firstMaxIdx_lt_length (counts : List Nat) (h : counts ≠ []) :
    firstMaxIdx counts < counts.length := by
  have hlen : 0 < counts.length := List.length_pos.2 h
  have key : ∀ (l : List Nat) (best : Nat), best < counts.length →
      (∀ i ∈ l, i < counts.length) →
      (l.foldl (fun best i =>
        if counts.getD best 0 < counts.getD i 0 then i else best) best) <
        counts.length := by
    intro l
    induction l with
    | nil => intro best hb _; simpa using hb
    | cons a t ih =>
      intro best hb hmem
      simp only [List.foldl_cons]
      split_ifs with hc
      · exact ih a (hmem a (by simp)) (fun i hi => hmem i (by simp [hi]))
      · exact ih best hb (fun i hi => hmem i (by simp [hi]))
  exact key (List.range counts.length) 0 hlen (fun i hi => List.mem_range.1 hi)

theorem baseAlloc_length (counts : List Nat) (cap : Nat) :
    (baseAlloc counts cap).length = counts.length := by
  simp [baseAlloc]

theorem baseAlloc_getD (counts : List Nat) (cap : Nat) (i : Nat)
    (h : i < counts.length) :
    (baseAlloc counts cap).getD i 0 =
      if counts.getD i 0 = 0 then 0
      else max ((counts.getD i 0 * cap) / counts.sum) 1 :=
  getD_map_nat _ counts i h

theorem baseAlloc_le_counts (counts : List Nat) (cap : Nat)
    (hcap : cap < counts.sum) (i : Nat) :
    (baseAlloc counts cap).getD i 0 ≤ counts.getD i 0 := by
  by_cases h : i < counts.length
  · rw [baseAlloc_getD counts cap i h]
    set n := counts.getD i 0 with hn
    by_cases hz : n = 0
    · simp [hz]
    · simp only [hz, if_false]
      have hpos : 0 < n := Nat.pos_of_ne_zero hz
      have hmul : n * cap < n * counts.sum := mul_lt_mul_of_pos_left hcap hpos
      have hdiv : n * cap / counts.sum < n :=
        Nat.div_lt_of_lt_mul (by rw [Nat.mul_comm counts.sum n]; exact hmul)
      omega
  · have h1 : (baseAlloc counts cap).getD i 0 = 0 := by
      apply List.getD_eq_default
      rw [baseAlloc_length]; omega
    rw [h1]
    exact Nat.zero_le _

theorem base_le_orAllocate (counts : List Nat) (cap : Nat) (j : Nat) :
    (baseAlloc counts cap).getD j 0 ≤ (orAllocate counts cap).getD j 0 := by
  unfold orAllocate
  split_ifs with h1 h2
  · rw [getD_set_nat]
    split_ifs with h3
    · rw [← h3.1]; omega
    · exact le_refl _
  · exact le_refl _
  · exact le_refl _

theorem orAllocate_le_counts (counts : List Nat) (cap : Nat)
    (hcap : cap < counts.sum) (i : Nat) :
    (orAllocate counts cap).getD i 0 ≤ counts.getD i 0 := by
  unfold orAllocate
  split_ifs with h1 h2
  · rw [getD_set_nat]
    split_ifs with h3
    · rw [← h3.1]; exact h2
    · exact baseAlloc_le_counts counts cap hcap i
  · exact baseAlloc_le_counts counts cap hcap i
  · exact baseAlloc_le_counts counts cap hcap i

theorem orAllocate_pos (counts : List Nat) (cap : Nat) (i : Nat)
    (hi : i < counts.length) (hnz : counts.getD i 0 ≠ 0) :
    1 ≤ (orAllocate counts cap).getD i 0 := by
  have hb : 1 ≤ (baseAlloc counts cap).getD i 0 := by
    rw [baseAlloc_getD counts cap i hi, if_neg hnz]
    exact le_max_right _ _
  exact le_trans hb (base_le_orAllocate counts cap i)

theorem orAllocate_sum_eq_cap (counts : List Nat) (cap : Nat)
    (hcap : cap < counts.sum)
    (hlt : (baseAlloc counts cap).sum < cap)
    (hfit : (baseAlloc counts cap).getD (firstMaxIdx counts) 0 +
        (cap - (baseAlloc counts cap).sum) ≤
      counts.getD (firstMaxIdx counts) 0) :
    (orAllocate counts cap).sum = cap := by
  have hne : counts ≠ [] := by
    intro h; rw [h] at hcap; simp at hcap
  have hm : firstMaxIdx counts < counts.length := firstMaxIdx_lt_length counts hne
  have hm' : firstMaxIdx counts < (baseAlloc counts cap).length := by
    rw [baseAlloc_length]; exact hm
  unfold orAllocate
  rw [if_pos hlt, if_pos hfit]
  have := sum_set_nat (baseAlloc counts cap) (firstMaxIdx counts)
    ((baseAlloc counts cap).getD (firstMaxIdx counts) 0 +
      (cap - (baseAlloc counts cap).sum)) hm'
  omega

theorem flatMap_take_length :
    ∀ (ls : List (List NewsItem)) (ns : List Nat),
      ls.length = ns.length →
      (∀ i, ns.getD i 0 ≤ (ls.getD i []).length) →
      ((ls.zip ns).flatMap (fun p => p.1.take p.2)).length = ns.sum := by
  intro ls
  induction ls with
  | nil =>
    intro ns hlen _
    have : ns = [] := by
      cases ns
      · rfl
      · simp at hlen
    subst this
    rfl
  | cons a t ih =>
    intro ns hlen hle
    cases ns with
    | nil => simp at hlen
    | cons n m =>
      have h0 := hle 0
      simp only [List.getD_cons_zero] at h0
      have ht := ih m (by simpa using hlen) (fun i => by simpa using hle (i + 1))
      simp only [List.zip_cons_cons, List.flatMap_cons, List.length_append, ht,
        List.length_take, List.sum_cons]
      omega

theorem mem_flatMap_zip :
    ∀ (ls : List (List NewsItem)) (ns : List Nat) (i : Nat), i < ls.length →
      ∀ x ∈ (ls.getD i []).take (ns.getD i 0),
        x ∈ (ls.zip ns).flatMap (fun p => p.1.take p.2) := by
  intro ls
  induction ls with
  | nil => intro ns i hi; simp at hi
  | cons a t ih =>
    intro ns i hi x hx
    cases ns with
    | nil =>
      rcases i with _ | j
      · simp at hx
      · simp at hx
    | cons n m =>
      simp only [List.zip_cons_cons, List.flatMap_cons, List.mem_append]
      rcases i with _ | j
      · simp only [List.getD_cons_zero] at hx
        exact Or.inl hx
      · right
        exact ih m j (by simpa using hi) x (by simpa using hx)

set_option maxHeartbeats 1000000 in
/-- C2 counterexample: with per-term result counts [4,4,4,4,1] and cap 15
(total 17 > 15) the `search_news` OR allocator leaves the remainder
unassigned — the largest term cannot absorb it — and the final batch has
13 items, not exactly 15; and with counts [1,30] the scheduled-cycle
allocator `apply_operation` gives the 1-result term zero slots, so its
item never reaches the batch, contradicting the floor-of-1 guarantee. -/
theorem or_allocation_counterexample :
    (c2Lists.map List.length).sum = 17 ∧
    (∀ l ∈ c2Lists, l ≠ []) ∧
    (orSelect c2Lists 15).length = 13 ∧
    ¬ (orSelect c2Lists 15).length = 15 ∧
    (⟨100, 0⟩ : NewsItem) ∈ c2ListsB.flatten ∧
    (∀ x ∈ apply_operation_or c2ListsB, x.url ≠ 100) := by
  decide

/-- C2 amended: under the `search_news` OR allocator, every term with at
least one result gets at least one slot and never more slots than
results; the remainder (cap minus the sum of the floored-with-minimum-1
allocations) is assigned to the first largest term only when that term
has enough results to absorb it, in which case the allocation sums to
exactly the cap; the batch size is the allocation total clipped at the
cap; every contributing term is represented in the batch whenever the
allocation total does not exceed the cap; and counts [10,3,2] with cap
10 allocate [7,2,1]. -/
theorem or_allocation_amended (lists : List (List NewsItem)) (cap : Nat)
    (hcap : cap < (lists.map List.length).sum) :
    (∀ i, i < lists.length → (lists.map List.length).getD i 0 ≠ 0 →
      1 ≤ (orAllocate (lists.map List.length) cap).getD i 0) ∧
    (∀ i, (orAllocate (lists.map List.length) cap).getD i 0 ≤
      (lists.map List.length).getD i 0) ∧
    ((baseAlloc (lists.map List.length) cap).sum < cap →
      (baseAlloc (lists.map List.length) cap).getD
          (firstMaxIdx (lists.map List.length)) 0 +
        (cap - (baseAlloc (lists.map List.length) cap).sum) ≤
        (lists.map List.length).getD (firstMaxIdx (lists.map List.length)) 0 →
      (orAllocate (lists.map List.length) cap).sum = cap) ∧
    ((orSelect lists cap).length =
      min ((orAllocate (lists.map List.length) cap).sum) cap) ∧
    ((orAllocate (lists.map List.length) cap).sum ≤ cap →
      ∀ i, i < lists.length → lists.getD i [] ≠ [] →
        ∃ x ∈ lists.getD i [], x ∈ orSelect lists cap) ∧
    orAllocate [10, 3, 2] 10 = [7, 2, 1] := by
  have hlenmap : (lists.map List.length).length = lists.length := by simp
  have hallocL : (orAllocate (lists.map List.length) cap).length =
      (lists.map List.length).length := by
    unfold orAllocate
    split_ifs <;> simp [baseAlloc_length, List.length_set]
  have hle : ∀ i, (orAllocate (lists.map List.length) cap).getD i 0 ≤
      (lists.getD i []).length := by
    intro i
    rw [← getD_length_lists]
    exact orAllocate_le_counts (lists.map List.length) cap hcap i
  have hsum0 : ¬ (lists.map List.length).sum = 0 := by omega
  have hflat : ((lists.zip (orAllocate (lists.map List.length) cap)).flatMap
      (fun p => p.1.take p.2)).length = (orAllocate (lists.map List.length) cap).sum :=
    flatMap_take_length lists (orAllocate (lists.map List.length) cap)
      (by rw [hallocL, hlenmap]) hle
  refine ⟨?_, ?_, ?_, ?_, ?_, by decide⟩
  · intro i hi hnz
    exact orAllocate_pos (lists.map List.length) cap i (by omega) hnz
  · exact orAllocate_le_counts (lists.map List.length) cap hcap
  · exact orAllocate_sum_eq_cap (lists.map List.length) cap hcap
  · unfold orSelect
    rw [if_neg hsum0, List.length_take, hflat]
    exact Nat.min_comm _ _
  · intro hsle i hi hne
    rcases hh : lists.getD i [] with _ | ⟨x, rest⟩
    · exact absurd hh hne
    · refine ⟨x, by exact List.mem_cons_self x rest, ?_⟩
      have hpos : 1 ≤ (orAllocate (lists.map List.length) cap).getD i 0 := by
        apply orAllocate_pos (lists.map List.length) cap i (by omega)
        rw [getD_length_lists, hh]
        simp
      have hxmem : x ∈ (lists.getD i []).take
          ((orAllocate (lists.map List.length) cap).getD i 0) := by
        rw [hh]
        rcases Nat.exists_eq_add_of_le hpos with ⟨k, hk⟩
        rw [hk]
        simp [List.take_cons]
      have hmem := mem_flatMap_zip lists (orAllocate (lists.map List.length) cap)
        i hi x hxmem
      unfold orSelect
      rw [if_neg hsum0]
      have : ((lists.zip (orAllocate (lists.map List.length) cap)).flatMap
          (fun p => p.1.take p.2)).length ≤ cap := by rw [hflat]; exact hsle
      rw [List.take_of_length_le this]
      exact hmem

/-- Witness for C2's amended theorem at the spec's own example: per-term
result lists of sizes 10, 3 and 2 with cap 10 give every term at least
one slot, assign the remainder to the largest term for a total of
exactly 10, and the batch has exactly 10 items. -/
theorem or_allocation_amended_witness :
    1 ≤ (orAllocate ([(List.range 10).map (fun i => (⟨i, 0⟩ : NewsItem)),
      (List.range 3).map (fun i => (⟨20 + i, 0⟩ : NewsItem)),
      (List.range 2).map (fun i => (⟨30 + i, 0⟩ : NewsItem))].map List.length) 10).getD 2 0 ∧
    (orAllocate ([(List.range 10).map (fun i => (⟨i, 0⟩ : NewsItem)),
      (List.range 3).map (fun i => (⟨20 + i, 0⟩ : NewsItem)),
      (List.range 2).map (fun i => (⟨30 + i, 0⟩ : NewsItem))].map List.length) 10).sum = 10 ∧
    (orSelect [(List.range 10).map (fun i => (⟨i, 0⟩ : NewsItem)),
      (List.range 3).map (fun i => (⟨20 + i, 0⟩ : NewsItem)),
      (List.range 2).map (fun i => (⟨30 + i, 0⟩ : NewsItem))] 10).length =
      min ((orAllocate ([(List.range 10).map (fun i => (⟨i, 0⟩ : NewsItem)),
        (List.range 3).map (fun i => (⟨20 + i, 0⟩ : NewsItem)),
        (List.range 2).map (fun i => (⟨30 + i, 0⟩ : NewsItem))].map List.length) 10).sum) 10 := by
  refine ⟨(or_allocation_amended _ 10 (by decide)).1 2 (by decide) (by decide),
    (or_allocation_amended _ 10 (by decide)).2.2.1 (by decide) (by decide),
    (or_allocation_amended _ 10 (by decide)).2.2.2.1⟩

theorem flatten_insertNews (sim : α → α → ℚ) (θ : ℚ) (gs : List (NewsGroup α)) (x : α) :
    ((insertNews sim θ gs x).map (fun g => g.members)).flatten.Perm
      (x :: (gs.map (fun g => g.members)).flatten) := by
  induction gs with
  | nil => simp [insertNews]
  | cons g t ih =>
    simp only [insertNews]
    split_ifs with h
    · simp only [List.map_cons, List.flatten_cons, List.append_assoc]
      exact List.perm_middle
    · simp only [List.map_cons, List.flatten_cons]
      exact (List.Perm.append_left g.members ih).trans List.perm_middle

theorem flatten_groupNews (sim : α → α → ℚ) (θ : ℚ) :
    ∀ (l : List α) (gs : List (NewsGroup α)),
      ((l.foldl (insertNews sim θ) gs).map (fun g => g.members)).flatten.Perm
        ((gs.map (fun g => g.members)).flatten ++ l) := by
  intro l
  induction l with
  | nil => intro gs; simp
  | cons x t ih =>
    intro gs
    simp only [List.foldl_cons]
    have h1 := ih (insertNews sim θ gs x)
    have h2 := List.Perm.append_right t (flatten_insertNews sim θ gs x)
    exact (h1.trans h2).trans List.perm_middle.symm

theorem members_ne_nil (sim : α → α → ℚ) (θ : ℚ) :
    ∀ (l : List α) (gs : List (NewsGroup α)),
      (∀ g ∈ gs, g.members ≠ []) →
      ∀ g ∈ l.foldl (insertNews sim θ) gs, g.members ≠ [] := by
  intro l
  induction l with
  | nil => intro gs h; simpa using h
  | cons x t ih =>
    intro gs h
    simp only [List.foldl_cons]
    apply ih
    clear ih
    induction gs with
    | nil =>
      intro g hg
      simp only [insertNews, List.mem_singleton] at hg
      subst hg
      simp
    | cons a s ihs =>
      intro g hg
      simp only [insertNews] at hg
      split_ifs at hg with hc
      · rcases List.mem_cons.1 hg with rfl | hgs
        · simp
        · exact h g (by simp [hgs])
      · rcases List.mem_cons.1 hg with rfl | hgs
        · exact h g (by simp)
        · exact ihs (fun g' hg' => h g' (List.mem_cons_of_mem a hg')) g hgs

/-- C10: similarity clustering partitions its input — the members of the
groups are a permutation of the input list, so the sum of `similar_count`
over the output equals the input length, every output carries
`similar_count ≥ 1`, and the empty input yields the empty output. -/
theorem clustering_partitions (sim : α → α → ℚ) (θ : ℚ) (isNaver : α → Bool)
    (date : α → Nat) (l : List α) :
    ((groupNews sim θ l).map (fun g => g.members)).flatten.Perm l ∧
    ((filter_similar_news sim θ isNaver date l).map Prod.snd).sum = l.length ∧
    (∀ p ∈ filter_similar_news sim θ isNaver date l, 1 ≤ p.2) ∧
    (l = [] → filter_similar_news sim θ isNaver date l = []) := by
  have hflat := flatten_groupNews sim θ l []
  simp only [List.map_nil, List.flatten_nil, List.nil_append] at hflat
  refine ⟨hflat, ?_, ?_, ?_⟩
  · have hmap : (filter_similar_news sim θ isNaver date l).map Prod.snd =
        (groupNews sim θ l).map (fun g => g.members.length) := by
      simp [filter_similar_news, List.map_map, Function.comp]
    have hlen := hflat.length_eq
    rw [List.length_flatten, List.map_map] at hlen
    rw [hmap]
    simpa [Function.comp] using hlen
  · intro p hp
    simp only [filter_similar_news, List.mem_map] at hp
    obtain ⟨g, hg, rfl⟩ := hp
    have hne := members_ne_nil sim θ l [] (by simp) g hg
    simpa [Nat.succ_le_iff] using List.length_pos.2 hne
  · intro h
    subst h
    rfl

/-- C8 counterexample: with a symmetric (but non-transitive) similarity
score and threshold 3/4, the input orders [0,1,2] and [1,0,2] — 
permutations of each other — produce 2 and 1 clusters respectively, so
the cluster count is not permutation-invariant under symmetry alone. -/
theorem clustering_order_counterexample :
    (∀ x y : Fin 3, simEx3 x y = simEx3 y x) ∧
    ([0, 1, 2] : List (Fin 3)).Perm [1, 0, 2] ∧
    (filter_similar_news simEx3 (3/4) (fun _ => false) (fun _ => 0)
      ([0, 1, 2] : List (Fin 3))).length = 2 ∧
    (filter_similar_news simEx3 (3/4) (fun _ => false) (fun _ => 0)
      ([1, 0, 2] : List (Fin 3))).length = 1 := by
  refine ⟨?_, by decide, ?_, ?_⟩
  · intro x y
    fin_cases x <;> fin_cases y <;> norm_num [simEx3, Fin.ext_iff]
  · norm_num [filter_similar_news, groupNews, insertNews, simEx3, Fin.ext_iff]
  · norm_num [filter_similar_news, groupNews, insertNews, simEx3, Fin.ext_iff]

theorem map_rep_insertNews (sim : α → α → ℚ) (θ : ℚ) (gs : List (NewsGroup α)) (x : α) :
    (insertNews sim θ gs x).map (fun g => g.rep) =
      addRep sim θ (gs.map (fun g => g.rep)) x := by
  induction gs with
  | nil => simp [insertNews, addRep]
  | cons g t ih =>
    simp only [insertNews]
    split_ifs with h
    · simp [addRep, List.any_cons, h]
    · simp only [List.map_cons, ih, addRep, List.any_cons, h]
      by_cases ha : (t.map (fun g => g.rep)).any (fun r => decide (θ ≤ sim x r))
      · simp [ha]
      · simp [ha]

theorem map_rep_groupNews (sim : α → α → ℚ) (θ : ℚ) :
    ∀ (l : List α) (gs : List (NewsGroup α)),
      (l.foldl (insertNews sim θ) gs).map (fun g => g.rep) =
        l.foldl (addRep sim θ) (gs.map (fun g => g.rep)) := by
  intro l
  induction l with
  | nil => intro gs; rfl
  | cons x t ih =>
    intro gs
    simp only [List.foldl_cons]
    rw [ih, map_rep_insertNews]

theorem length_groupNews_eq_reps (sim : α → α → ℚ) (θ : ℚ) (l : List α) :
    (groupNews sim θ l).length = (clusterReps sim θ l).length := by
  have := congrArg List.length (map_rep_groupNews sim θ l [])
  simpa [groupNews, clusterReps] using this

theorem subset_addRep (sim : α → α → ℚ) (θ : ℚ) (acc : List α) (x : α) :
    acc ⊆ addRep sim θ acc x := by
  unfold addRep
  split_ifs
  · exact fun a ha => ha
  · exact fun a ha => List.mem_append_left _ ha

theorem subset_foldl_addRep (sim : α → α → ℚ) (θ : ℚ) :
    ∀ (l : List α) (acc : List α), acc ⊆ l.foldl (addRep sim θ) acc := by
  intro l
  induction l with
  | nil => intro acc a ha; simpa using ha
  | cons x t ih =>
    intro acc a ha
    exact ih (addRep sim θ acc x) (subset_addRep sim θ acc x ha)

theorem mem_foldl_addRep (sim : α → α → ℚ) (θ : ℚ) :
    ∀ (l : List α) (acc : List α) (r : α),
      r ∈ l.foldl (addRep sim θ) acc → r ∈ acc ∨ r ∈ l := by
  intro l
  induction l with
  | nil => intro acc r h; exact Or.inl (by simpa using h)
  | cons x t ih =>
    intro acc r h
    rcases ih (addRep sim θ acc x) r h with h1 | h1
    · unfold addRep at h1
      split_ifs at h1
      · exact Or.inl h1
      · rcases List.mem_append.1 h1 with h2 | h2
        · exact Or.inl h2
        · exact Or.inr (by simp at h2; simp [h2])
    · exact Or.inr (List.mem_cons_of_mem x h1)

theorem foldl_addRep_cover (sim : α → α → ℚ) (θ : ℚ)
    (hrefl : ∀ x : α, θ ≤ sim x x) :
    ∀ (l : List α) (acc : List α) (y : α), y ∈ l →
      ∃ r ∈ l.foldl (addRep sim θ) acc, θ ≤ sim y r := by
  intro l
  induction l with
  | nil => intro acc y hy; simp at hy
  | cons x t ih =>
    intro acc y hy
    rcases List.mem_cons.1 hy with rfl | hyt
    · by_cases hx : acc.any (fun r => decide (θ ≤ sim y r))
      · rcases List.any_eq_true.1 hx with ⟨r, hr, hsim⟩
        refine ⟨r, ?_, by simpa using hsim⟩
        apply subset_foldl_addRep sim θ t (addRep sim θ acc y)
        exact subset_addRep sim θ acc y hr
      · refine ⟨y, ?_, hrefl y⟩
        apply subset_foldl_addRep sim θ t (addRep sim θ acc y)
        unfold addRep
        rw [if_neg hx]
        exact List.mem_append_right _ (by simp)
    · exact ih (addRep sim θ acc x) y hyt

theorem addRep_inv (sim : α → α → ℚ) (θ : ℚ)
    (hsym : ∀ x y : α, sim x y = sim y x) (hrefl : ∀ x : α, θ ≤ sim x x)
    (acc : List α) (x : α) (hn : acc.Nodup)
    (hu : ∀ a ∈ acc, ∀ b ∈ acc, a ≠ b → ¬ θ ≤ sim a b) :
    (addRep sim θ acc x).Nodup ∧
    (∀ a ∈ addRep sim θ acc x, ∀ b ∈ addRep sim θ acc x, a ≠ b → ¬ θ ≤ sim a b) := by
  unfold addRep
  split_ifs with h
  · exact ⟨hn, hu⟩
  · have hnone : ∀ r ∈ acc, ¬ θ ≤ sim x r := by
      intro r hr hsimr
      exact h (List.any_eq_true.2 ⟨r, hr, by simpa using hsimr⟩)
    have hx : x ∉ acc := fun hxm => hnone x hxm (hrefl x)
    constructor
    · simpa [List.nodup_append] using ⟨hn, hx⟩
    · intro a ha b hb hne
      rcases List.mem_append.1 ha with ha' | ha' <;>
        rcases List.mem_append.1 hb with hb' | hb'
      · exact hu a ha' b hb' hne
      · have hbx : b = x := by simpa using hb'
        rw [hbx]
        intro hab
        exact hnone a ha' (by rw [hsym x a]; exact hab)
      · have hax : a = x := by simpa using ha'
        rw [hax]
        exact hnone b hb'
      · have hax : a = x := by simpa using ha'
        have hbx : b = x := by simpa using hb'
        exact absurd (hax.trans hbx.symm) hne

theorem foldl_addRep_inv (sim : α → α → ℚ) (θ : ℚ)
    (hsym : ∀ x y : α, sim x y = sim y x) (hrefl : ∀ x : α, θ ≤ sim x x) :
    ∀ (l acc : List α), acc.Nodup →
      (∀ a ∈ acc, ∀ b ∈ acc, a ≠ b → ¬ θ ≤ sim a b) →
      (l.foldl (addRep sim θ) acc).Nodup ∧
      (∀ a ∈ l.foldl (addRep sim θ) acc, ∀ b ∈ l.foldl (addRep sim θ) acc,
        a ≠ b → ¬ θ ≤ sim a b) := by
  intro l
  induction l with
  | nil => intro acc hn hu; exact ⟨hn, hu⟩
  | cons x t ih =>
    intro acc hn hu
    have step := addRep_inv sim θ hsym hrefl acc x hn hu
    exact ih (addRep sim θ acc x) step.1 step.2

theorem transversal_length_le [DecidableEq α] (sim : α → α → ℚ) (θ : ℚ)
    (hsym : ∀ x y : α, sim x y = sim y x)
    (htrans : ∀ x y z : α, θ ≤ sim x y → θ ≤ sim y z → θ ≤ sim x z)
    (R S : List α) (hRn : R.Nodup) (hSn : S.Nodup)
    (hRu : ∀ a ∈ R, ∀ b ∈ R, a ≠ b → ¬ θ ≤ sim a b)
    (hRS : ∀ r ∈ R, ∃ s ∈ S, θ ≤ sim r s) :
    R.length ≤ S.length := by
  classical
  set f : α → α := fun r =>
    if h : ∃ s, s ∈ S ∧ θ ≤ sim r s then h.choose else r with hf
  have hfmem : ∀ r ∈ R, f r ∈ S ∧ θ ≤ sim r (f r) := by
    intro r hr
    obtain ⟨s, hs, hsim⟩ := hRS r hr
    have hex : ∃ s, s ∈ S ∧ θ ≤ sim r s := ⟨s, hs, hsim⟩
    rw [hf]
    simp only [dif_pos hex]
    exact ⟨hex.choose_spec.1, hex.choose_spec.2⟩
  have hcard : R.toFinset.card ≤ S.toFinset.card := by
    apply Finset.card_le_card_of_injOn f
    · intro a ha
      rw [List.mem_toFinset] at ha
      rw [List.mem_toFinset]
      exact (hfmem a ha).1
    · intro a ha b hb hfab
      simp only [Finset.mem_coe, List.mem_toFinset] at ha hb
      by_contra hne
      have h1 : θ ≤ sim a (f a) := (hfmem a ha).2
      have h2 : θ ≤ sim b (f b) := (hfmem b hb).2
      rw [← hfab] at h2
      have h3 : θ ≤ sim (f a) b := by rw [hsym]; exact h2
      exact hRu a ha b hb hne (htrans a (f a) b h1 h3)
  rwa [List.toFinset_card_of_nodup hRn, List.toFinset_card_of_nodup hSn] at hcard

/-- C8 amended: when the pairwise similarity score is symmetric and the
thresholded similarity relation is reflexive and transitive (an
equivalence), clustering produces the same number of output clusters for
every permutation of the input; with symmetry alone the cluster count can
differ across permutations (see the counterexample). -/
theorem clustering_count_perm_invariant [DecidableEq α] (sim : α → α → ℚ)
    (θ : ℚ) (isNaver : α → Bool) (date : α → Nat) (l l' : List α)
    (hperm : l.Perm l')
    (hsym : ∀ x y : α, sim x y = sim y x)
    (hrefl : ∀ x : α, θ ≤ sim x x)
    (htrans : ∀ x y z : α, θ ≤ sim x y → θ ≤ sim y z → θ ≤ sim x z) :
    (filter_similar_news sim θ isNaver date l).length =
      (filter_similar_news sim θ isNaver date l').length := by
  have hinvl := foldl_addRep_inv sim θ hsym hrefl l [] (by simp) (by simp)
  have hinvl' := foldl_addRep_inv sim θ hsym hrefl l' [] (by simp) (by simp)
  have hcov : ∀ r ∈ clusterReps sim θ l, ∃ s ∈ clusterReps sim θ l', θ ≤ sim r s := by
    intro r hr
    have hrl : r ∈ l := by
      rcases mem_foldl_addRep sim θ l [] r hr with h | h
      · simp at h
      · exact h
    exact foldl_addRep_cover sim θ hrefl l' [] r (hperm.mem_iff.1 hrl)
  have hcov' : ∀ s ∈ clusterReps sim θ l', ∃ r ∈ clusterReps sim θ l, θ ≤ sim s r := by
    intro s hs
    have hsl : s ∈ l' := by
      rcases mem_foldl_addRep sim θ l' [] s hs with h | h
      · simp at h
      · exact h
    exact foldl_addRep_cover sim θ hrefl l [] s (hperm.mem_iff.2 hsl)
  have hle1 := transversal_length_le sim θ hsym htrans
    (clusterReps sim θ l) (clusterReps sim θ l') hinvl.1 hinvl'.1 hinvl.2 hcov
  have hle2 := transversal_length_le sim θ hsym htrans
    (clusterReps sim θ l') (clusterReps sim θ l) hinvl'.1 hinvl.1 hinvl'.2 hcov'
  have hkey : (clusterReps sim θ l).length = (clusterReps sim θ l').length :=
    Nat.le_antisymm hle1 hle2
  have h1 : (filter_similar_news sim θ isNaver date l).length =
      (groupNews sim θ l).length := by simp [filter_similar_news]
  have h2 : (filter_similar_news sim θ isNaver date l').length =
      (groupNews sim θ l').length := by simp [filter_similar_news]
  rw [h1, h2, length_groupNews_eq_reps, length_groupNews_eq_reps, hkey]

/-- Witness for C8's amended theorem: under the constant score 1 (an
equivalence above any threshold ≤ 1) the two orders of a two-item input
give the same cluster count. -/
theorem clustering_count_perm_invariant_witness :
    (filter_similar_news (fun _ _ : Nat => (1 : ℚ)) (1/2) (fun _ => false)
      (fun _ => 0) [0, 1]).length =
      (filter_similar_news (fun _ _ : Nat => (1 : ℚ)) (1/2) (fun _ => false)
        (fun _ => 0) [1, 0]).length :=
  clustering_count_perm_invariant _ _ _ _ _ _ (by decide) (fun _ _ => rfl)
    (fun _ => by norm_num) (fun _ _ _ h _ => h)

/-- Witness for C10 at the empty input and a concrete two-item input. -/
theorem clustering_partitions_witness :
    filter_similar_news (fun _ _ : Nat => (1 : ℚ)) (1/2) (fun _ => false)
      (fun _ => 0) ([] : List Nat) = [] ∧
    ((filter_similar_news (fun _ _ : Nat => (1 : ℚ)) (1/2) (fun _ => false)
      (fun _ => 0) [7, 8]).map Prod.snd).sum = 2 := by
  constructor
  · exact (clustering_partitions _ _ _ _ []).2.2.2 rfl
  · have h := (clustering_partitions (fun _ _ : Nat => (1 : ℚ)) (1/2)
      (fun _ => false) (fun _ => 0) [7, 8]).2.1
    simpa using h

set_option maxHeartbeats 4000000 in
/-- C1: for every text, `"삼성 AND 전자"` matches iff the text contains
both terms as case-insensitive substrings in any order, `"A OR B"`
matches iff it contains at least one of the terms, and
`"(A OR B) AND C"` matches iff (A present or B present) and C present. -/
theorem evaluate_keyword_expression_spec (text : List Char) :
    (evaluate_keyword_expression "삼성 AND 전자".toList text = true ↔
      (containsCI "삼성".toList text = true ∧ containsCI "전자".toList text = true)) ∧
    (evaluate_keyword_expression "A OR B".toList text = true ↔
      (containsCI "A".toList text = true ∨ containsCI "B".toList text = true)) ∧
    (evaluate_keyword_expression "(A OR B) AND C".toList text = true ↔
      ((containsCI "A".toList text = true ∨ containsCI "B".toList text = true) ∧
        containsCI "C".toList text = true)) := by
  refine ⟨?_, ?_, ?_⟩
  · have h : evaluate_keyword_expression "삼성 AND 전자".toList text =
        (containsCI "삼성".toList text && (containsCI "전자".toList text && true)) := rfl
    rw [h]
    simp
  · have h : evaluate_keyword_expression "A OR B".toList text =
        (containsCI "A".toList text || (containsCI "B".toList text || false)) := rfl
    rw [h]
    simp
  · have h0 : evaluate_keyword_expression "(A OR B) AND C".toList text =
        final_evaluate (pyLower text) (parenLoop (pyLower text) 13
          ((if (pyIn ['a'] (pyLower text) || (pyIn ['b'] (pyLower text) || false)) then
            "__TRUE__".toList else "__FALSE__".toList) ++ " AND C".toList)) := rfl
    have hkey : ∀ r : Bool,
        final_evaluate (pyLower text) (parenLoop (pyLower text) 13
          ((if r then "__TRUE__".toList else "__FALSE__".toList) ++ " AND C".toList)) =
        (r && (pyIn ['c'] (pyLower text) && true)) := by
      intro r
      cases r <;> rfl
    have e1 : containsCI "A".toList text = pyIn ['a'] (pyLower text) := rfl
    have e2 : containsCI "B".toList text = pyIn ['b'] (pyLower text) := rfl
    have e3 : containsCI "C".toList text = pyIn ['c'] (pyLower text) := rfl
    rw [h0, hkey, e1, e2, e3]
    simp

/-- Concrete checks of the evaluator on sample texts: both AND terms
must appear in either order, one OR term suffices, and the mixed form
needs C together with A or B. -/
theorem evaluate_keyword_expression_examples :
    evaluate_keyword_expression "삼성 AND 전자".toList "관련 전자 삼성그룹".toList = true ∧
    evaluate_keyword_expression "삼성 AND 전자".toList "삼성그룹 소식".toList = false ∧
    evaluate_keyword_expression "A OR B".toList "xxbyy".toList = true ∧
    evaluate_keyword_expression "A OR B".toList "xxyy".toList = false ∧
    evaluate_keyword_expression "(A OR B) AND C".toList "bc".toList = true ∧
    evaluate_keyword_expression "(A OR B) AND C".toList "b".toList = false ∧
    evaluate_keyword_expression "(A OR B) AND C".toList "c".toList = false ∧
    evaluate_keyword_expression "(A OR B) AND C".toList "ac".toList = true := by
  refine ⟨?_, ?_, ?_, ?_, ?_, ?_, ?_, ?_⟩ <;> decide
